import Mathlib

/-!
Verification of the `ratatui-intro` example programs.

The repository consists of two small terminal programs
(`src/ratatui-intro/src/example_2.rs` and `example_3.rs`).  Each sets up the
terminal, runs a draw/poll loop (`run_app`) until the user presses `q`, and
restores the terminal on the way out (`main`).  Layout of the screen into
panels is delegated to the external layout engine (`Layout::split` of the
rendering library), which is not part of this repository's sources; the
specification documents its intended behaviour, so it is modelled here from
the specification's words.  The draw loop and `main` are embedded directly
from the repository's code, with the terminal session's I/O outcomes supplied
explicitly as data.
-/

/-- A screen region: origin at the top left, non-negative dimensions
(data model of the specification; the library's `Rect`). -/
structure Rect where
  x : Int
  y : Int
  width : Nat
  height : Nat
deriving DecidableEq

/-- Axis along which an area is subdivided. -/
inductive Direction
  | horizontal
  | vertical
deriving DecidableEq

/-- Layout constraint variants used by the examples:
`Percentage`, `Length` and `Min`. -/
inductive Constraint
  | percentage (p : Nat)
  | length (n : Nat)
  | min (n : Nat)
deriving DecidableEq

/-- Whether a constraint is a `Min` constraint. -/
def Constraint.isMin : Constraint → Bool
  | .min _ => true
  | _ => false

/-- Modelled from the spec: `round(p/100 * total)`, the extent a
`Percentage(p)` constraint asks for (rounding half up). -/
def roundPct (p total : Nat) : Nat :=
  (p * total + 50) / 100

/-- Modelled from the spec: the extent a constraint asks for, before
clamping, on a split axis of extent `total`: `Percentage(p)` asks for
`round(p/100 * total)`, `Length(n)` and `Min(n)` ask for `n`. -/
def baseDemand (total : Nat) : Constraint → Nat
  | .percentage p => roundPct p total
  | .length n => n
  | .min n => n

/-- Sum of the demands of a constraint list on an axis of extent `total`. -/
def totalDemand (total : Nat) (cs : List Constraint) : Nat :=
  (cs.map (baseDemand total)).sum

/-- Modelled from the spec: first allocation pass.  Constraints are served
in order; each receives its demand clamped to the extent still remaining
(`constraints summing to more than the available extent are resolved by
clamping, later constraints receive zero`). -/
def allocBase (total : Nat) : Nat → List Constraint → List Nat
  | _, [] => []
  | rem, c :: cs =>
    Nat.min (baseDemand total c) rem ::
      allocBase total (rem - Nat.min (baseDemand total c) rem) cs

/-- Modelled from the spec: the last `Min` constraint in the list absorbs
the leftover extent (`if extra space remains after satisfying
fixed/percentage constraints, any Min constraint absorbs leftover; policy:
the last Min constraint in the list absorbs the remainder`). -/
def absorb (l : Nat) : List Constraint → List Nat → List Nat
  | c :: cs, a :: as =>
    if cs.any Constraint.isMin then a :: absorb l cs as
    else if c.isMin then (a + l) :: as
    else a :: absorb l cs as
  | _, as => as

/-- Modelled from the spec: the extents allocated to a constraint list on a
split axis of extent `total`: a clamped first pass, then the last `Min`
constraint absorbs the leftover. -/
def splitSizes (total : Nat) (cs : List Constraint) : List Nat :=
  absorb (total - (allocBase total total cs).sum) cs (allocBase total total cs)

/-- Extent of a rectangle along the split axis. -/
def extentAlong : Direction → Rect → Nat
  | .horizontal, r => r.width
  | .vertical, r => r.height

/-- Start coordinate of a rectangle along the split axis. -/
def startAlong : Direction → Rect → Int
  | .horizontal, r => r.x
  | .vertical, r => r.y

/-- Modelled from the spec: the uniform margin is subtracted from all four
edges of the area before splitting. -/
def innerRect (area : Rect) (margin : Nat) : Rect :=
  ⟨area.x + (margin : Int), area.y + (margin : Int),
    area.width - 2 * margin, area.height - 2 * margin⟩

/-- Lay the allocated extents edge to edge from `pos` along the split axis,
the perpendicular axis taken unchanged from `inner`. -/
def layoutRects (dir : Direction) (inner : Rect) : Int → List Nat → List Rect
  | _, [] => []
  | pos, a :: as =>
    (match dir with
     | .horizontal => (⟨pos, inner.y, a, inner.height⟩ : Rect)
     | .vertical => (⟨inner.x, pos, inner.width, a⟩ : Rect)) ::
      layoutRects dir inner (pos + (a : Int)) as

/-- Modelled from the spec: the Frame Layout Engine's
`split(area, direction, constraints)` (implemented by the external rendering
library, not present under `src/`), with its optional uniform `margin`.
The margin is subtracted, the axis extent is partitioned among the
constraints in order with clamping, the last `Min` absorbs the leftover, and
the resulting extents are laid edge to edge starting at the inner area's
origin. -/
def split (area : Rect) (dir : Direction) (margin : Nat)
    (cs : List Constraint) : List Rect :=
  layoutRects dir (innerRect area margin)
    (startAlong dir (innerRect area margin))
    (splitSizes (extentAlong dir (innerRect area margin)) cs)

/-- Boolean check that the rectangles are laid edge to edge starting at
`pos`: each starts where the previous one ended. -/
def edgeChainB (dir : Direction) : Int → List Rect → Bool
  | _, [] => true
  | pos, r :: rs =>
    (startAlong dir r == pos) &&
      edgeChainB dir (pos + (extentAlong dir r : Int)) rs

/-- Boolean check that every rectangle inherits position and extent along
the perpendicular axis from `inner`. -/
def perpInherited (dir : Direction) (inner : Rect) (rs : List Rect) : Bool :=
  rs.all fun r =>
    match dir with
    | .horizontal => r.y == inner.y && r.height == inner.height
    | .vertical => r.x == inner.x && r.width == inner.width

lemma allocBase_length (total rem : Nat) (cs : List Constraint) :
    (allocBase total rem cs).length = cs.length := by
  induction cs generalizing rem with
  | nil => rfl
  | cons c cs ih => simp [allocBase, ih]

lemma allocBase_sum (total rem : Nat) (cs : List Constraint) :
    (allocBase total rem cs).sum = Nat.min (totalDemand total cs) rem := by
  induction cs generalizing rem with
  | nil => simp [allocBase, totalDemand]
  | cons c cs ih =>
    simp only [allocBase, List.sum_cons, ih]
    simp only [totalDemand, List.map_cons, List.sum_cons]
    simp only [Nat.min_def]
    split_ifs <;> omega

lemma absorb_length (l : Nat) (cs : List Constraint) (as : List Nat) :
    (absorb l cs as).length = as.length := by
  induction cs generalizing as with
  | nil => rfl
  | cons c cs ih =>
    cases as with
    | nil => rfl
    | cons a as =>
      simp only [absorb]
      split
      · simp [ih]
      · split
        · simp
        · simp [ih]

lemma absorb_sum (l : Nat) (cs : List Constraint) (as : List Nat)
    (h : as.length = cs.length) :
    (absorb l cs as).sum = as.sum + (if cs.any Constraint.isMin then l else 0) := by
  induction cs generalizing as with
  | nil => simp [absorb]
  | cons c cs ih =>
    cases as with
    | nil => simp at h
    | cons a as =>
      simp only [List.length_cons, Nat.add_right_cancel_iff] at h
      simp only [absorb, List.any_cons]
      by_cases hany : cs.any Constraint.isMin = true
      · simp [hany, ih as h]
        omega
      · by_cases hc : c.isMin = true
        · simp [hany, hc, List.sum_cons]
          omega
        · simp [hany, hc, ih as h]

lemma absorb_zero (cs : List Constraint) (as : List Nat) :
    absorb 0 cs as = as := by
  induction cs generalizing as with
  | nil => rfl
  | cons c cs ih =>
    cases as with
    | nil => rfl
    | cons a as =>
      simp only [absorb]
      split
      · simp [ih]
      · split
        · simp
        · simp [ih]

lemma layoutRects_map_extent (dir : Direction) (inner : Rect) (pos : Int)
    (as : List Nat) :
    (layoutRects dir inner pos as).map (extentAlong dir) = as := by
  induction as generalizing pos with
  | nil => rfl
  | cons a as ih => cases dir <;> simp [layoutRects, extentAlong, ih]

lemma layoutRects_edge (dir : Direction) (inner : Rect) (pos : Int)
    (as : List Nat) :
    edgeChainB dir pos (layoutRects dir inner pos as) = true := by
  induction as generalizing pos with
  | nil => rfl
  | cons a as ih =>
    cases dir <;> simp [layoutRects, edgeChainB, startAlong, extentAlong, ih]

lemma layoutRects_perp (dir : Direction) (inner : Rect) (pos : Int)
    (as : List Nat) :
    perpInherited dir inner (layoutRects dir inner pos as) = true := by
  induction as generalizing pos with
  | nil => rfl
  | cons a as ih =>
    cases dir <;> simp [layoutRects, perpInherited, List.all_cons, ih] <;>
      simpa [perpInherited] using ih (pos + (a : Int))

lemma split_map_extent (area : Rect) (dir : Direction) (margin : Nat)
    (cs : List Constraint) :
    (split area dir margin cs).map (extentAlong dir) =
      splitSizes (extentAlong dir (innerRect area margin)) cs := by
  simp [split, layoutRects_map_extent]

lemma splitSizes_length (total : Nat) (cs : List Constraint) :
    (splitSizes total cs).length = cs.length := by
  simp [splitSizes, absorb_length, allocBase_length]

lemma splitSizes_sum (total : Nat) (cs : List Constraint) :
    (splitSizes total cs).sum =
      if cs.any Constraint.isMin then total
      else Nat.min (totalDemand total cs) total := by
  have hlen : (allocBase total total cs).length = cs.length :=
    allocBase_length total total cs
  have hsum : (allocBase total total cs).sum = Nat.min (totalDemand total cs) total :=
    allocBase_sum total total cs
  rw [splitSizes, absorb_sum _ _ _ hlen, hsum]
  by_cases hany : cs.any Constraint.isMin = true
  · simp only [hany, if_true]
    simp only [Nat.min_def]
    split_ifs <;> omega
  · simp [hany]

lemma allocBase_append (total rem : Nat) (xs ys : List Constraint) :
    allocBase total rem (xs ++ ys) =
      allocBase total rem xs ++
        allocBase total (rem - (allocBase total rem xs).sum) ys := by
  induction xs generalizing rem with
  | nil => simp [allocBase]
  | cons x xs ih =>
    simp only [List.cons_append, allocBase, List.sum_cons, List.append_eq]
    rw [ih, Nat.sub_sub]

lemma allocBase_getElem (total : Nat) (pre : List Constraint) (c : Constraint)
    (post : List Constraint) :
    (allocBase total total (pre ++ c :: post))[pre.length]? =
      some (Nat.min (baseDemand total c) (total - totalDemand total pre)) := by
  rw [allocBase_append]
  rw [List.getElem?_append_right (by rw [allocBase_length])]
  rw [allocBase_length]
  simp only [Nat.sub_self, allocBase, List.getElem?_cons_zero]
  rw [allocBase_sum]
  have h : total - Nat.min (totalDemand total pre) total = total - totalDemand total pre := by
    simp only [Nat.min_def]
    split_ifs <;> omega
  rw [h]

lemma absorb_getElem_nonmin (l : Nat) (cs : List Constraint) (as : List Nat)
    (i : Nat) (c : Constraint) (hc : cs[i]? = some c) (hm : c.isMin = false) :
    (absorb l cs as)[i]? = as[i]? := by
  induction cs generalizing as i with
  | nil => simp at hc
  | cons c0 cs ih =>
    cases as with
    | nil => rfl
    | cons a as =>
      simp only [absorb]
      cases i with
      | zero =>
        simp only [List.getElem?_cons_zero, Option.some_inj] at hc
        subst hc
        by_cases hany : cs.any Constraint.isMin = true
        · simp [hany]
        · simp [hany, hm]
      | succ i =>
        simp only [List.getElem?_cons_succ] at hc
        by_cases hany : cs.any Constraint.isMin = true
        · simp [hany, List.getElem?_cons_succ, ih as i hc]
        · by_cases h0 : c0.isMin = true
          · simp [hany, h0, List.getElem?_cons_succ]
          · simp [hany, h0, List.getElem?_cons_succ, ih as i hc]

lemma absorb_getElem_ge (l : Nat) (cs : List Constraint) (as : List Nat)
    (i : Nat) (a : Nat) (ha : as[i]? = some a) :
    ∃ b, (absorb l cs as)[i]? = some b ∧ a ≤ b := by
  induction cs generalizing as i with
  | nil => exact ⟨a, by simpa [absorb] using ha, Nat.le_refl a⟩
  | cons c0 cs ih =>
    cases as with
    | nil => simp at ha
    | cons a0 as =>
      simp only [absorb]
      by_cases hany : cs.any Constraint.isMin = true
      · cases i with
        | zero =>
          simp only [List.getElem?_cons_zero, Option.some_inj] at ha
          exact ⟨a0, by simp [hany], ha ▸ Nat.le_refl a⟩
        | succ i =>
          simp only [List.getElem?_cons_succ] at ha
          obtain ⟨b, hb, hab⟩ := ih as i ha
          exact ⟨b, by simp [hany, List.getElem?_cons_succ, hb], hab⟩
      · by_cases h0 : c0.isMin = true
        · cases i with
          | zero =>
            simp only [List.getElem?_cons_zero, Option.some_inj] at ha
            exact ⟨a0 + l, by simp [hany, h0], by omega⟩
          | succ i =>
            simp only [List.getElem?_cons_succ] at ha
            exact ⟨a, by simp [hany, h0, List.getElem?_cons_succ, ha], Nat.le_refl a⟩
        · cases i with
          | zero =>
            simp only [List.getElem?_cons_zero, Option.some_inj] at ha
            exact ⟨a0, by simp [hany, h0], ha ▸ Nat.le_refl a⟩
          | succ i =>
            simp only [List.getElem?_cons_succ] at ha
            obtain ⟨b, hb, hab⟩ := ih as i ha
            exact ⟨b, by simp [hany, h0, List.getElem?_cons_succ, hb], hab⟩

lemma splitSizes_getElem_nonmin (total : Nat) (pre : List Constraint)
    (c : Constraint) (post : List Constraint) (hm : c.isMin = false) :
    (splitSizes total (pre ++ c :: post))[pre.length]? =
      some (Nat.min (baseDemand total c) (total - totalDemand total pre)) := by
  rw [splitSizes, absorb_getElem_nonmin _ _ _ _ c _ hm, allocBase_getElem]
  rw [List.getElem?_append_right (Nat.le_refl pre.length)]
  simp

/-- C1 (amended): for every rectangle, direction, margin and constraint list,
`split` returns exactly one rectangle per constraint, emitted in constraint
order and laid edge to edge with no gaps and no overlaps from the inner
area's origin, with position and extent along the perpendicular axis
inherited from the margin-shrunk area; the extents along the split axis sum
to the inner extent whenever the list contains a `Min` constraint, and to
the total demand clamped to the inner extent otherwise. -/
theorem split_count_order_tiling (area : Rect) (dir : Direction) (margin : Nat)
    (cs : List Constraint) :
    (split area dir margin cs).length = cs.length ∧
    ((split area dir margin cs).map (extentAlong dir)).sum =
      (if cs.any Constraint.isMin then extentAlong dir (innerRect area margin)
       else Nat.min (totalDemand (extentAlong dir (innerRect area margin)) cs)
         (extentAlong dir (innerRect area margin))) ∧
    edgeChainB dir (startAlong dir (innerRect area margin))
      (split area dir margin cs) = true ∧
    perpInherited dir (innerRect area margin) (split area dir margin cs) = true := by
  refine ⟨?_, ?_, ?_, ?_⟩
  · have h := congrArg List.length (split_map_extent area dir margin cs)
    simpa [splitSizes_length] using h
  · rw [split_map_extent, splitSizes_sum]
  · exact layoutRects_edge dir (innerRect area margin) _ _
  · exact layoutRects_perp dir (innerRect area margin) _ _

/-- C1 counterexample: splitting a width-10 rectangle horizontally with the
single constraint `Length(2)` (no margin) yields one rectangle of width 2,
so the extents along the split axis do not sum to the area's width. -/
theorem split_count_order_tiling_cex :
    (split ⟨0, 0, 10, 1⟩ .horizontal 0 [.length 2]).map (extentAlong .horizontal) = [2] ∧
    extentAlong .horizontal (innerRect ⟨0, 0, 10, 1⟩ 0) = 10 ∧
    ¬ (((split ⟨0, 0, 10, 1⟩ .horizontal 0 [.length 2]).map (extentAlong .horizontal)).sum =
        extentAlong .horizontal (innerRect ⟨0, 0, 10, 1⟩ 0)) := by
  decide

/-- C2 (amended): a `Percentage(p)` constraint consumes
`min(round(p/100 * total_extent), remaining)` units along the split axis,
where `remaining` is what the demands of the earlier constraints left over;
in particular `[Percentage(50), Percentage(50)]` on a width-100 rectangle
yields widths 50 and 50, and `[Percentage(30), Percentage(70)]` yields
widths 30 and 70 with no leftover unit. -/
theorem split_percentage_alloc (area : Rect) (dir : Direction) (margin : Nat)
    (pre post : List Constraint) (p : Nat) :
    ((split area dir margin (pre ++ .percentage p :: post)).map
        (extentAlong dir))[pre.length]? =
      some (Nat.min (roundPct p (extentAlong dir (innerRect area margin)))
        (extentAlong dir (innerRect area margin) -
          totalDemand (extentAlong dir (innerRect area margin)) pre)) ∧
    (split ⟨0, 0, 100, 1⟩ .horizontal 0
        [.percentage 50, .percentage 50]).map Rect.width = [50, 50] ∧
    (split ⟨0, 0, 100, 1⟩ .horizontal 0
        [.percentage 30, .percentage 70]).map Rect.width = [30, 70] := by
  refine ⟨?_, by decide, by decide⟩
  rw [split_map_extent]
  have h := splitSizes_getElem_nonmin (extentAlong dir (innerRect area margin))
    pre (.percentage p) post rfl
  simpa [baseDemand] using h

/-- C2 counterexample: on a width-100 rectangle,
`[Percentage(80), Percentage(80)]` gives the second constraint only the 20
remaining columns, not `round(80/100 * 100) = 80`. -/
theorem split_percentage_cex :
    (split ⟨0, 0, 100, 1⟩ .horizontal 0
        [.percentage 80, .percentage 80]).map Rect.width = [80, 20] ∧
    roundPct 80 100 = 80 ∧ ¬ ((20 : Nat) = 80) := by
  decide

/-- C3 (amended): `[Min(1), Length(2)]` applied vertically to a height-20
rectangle with margin 1 yields a first rectangle of the inner height minus 2
and a second of height exactly 2; in general `Length(n)` consumes exactly
`min(n, remaining)` units, and `Min(n)` consumes at least `min(n, remaining)`
units (absorbing leftover space), where `remaining` is what the demands of
the earlier constraints left over. -/
theorem split_min_length (area : Rect) (dir : Direction) (margin : Nat)
    (pre post : List Constraint) (n : Nat) :
    (split ⟨0, 0, 30, 20⟩ .vertical 1 [.min 1, .length 2]).map Rect.height =
      [extentAlong .vertical (innerRect ⟨0, 0, 30, 20⟩ 1) - 2, 2] ∧
    ((split area dir margin (pre ++ .length n :: post)).map
        (extentAlong dir))[pre.length]? =
      some (Nat.min n (extentAlong dir (innerRect area margin) -
        totalDemand (extentAlong dir (innerRect area margin)) pre)) ∧
    ∃ b, ((split area dir margin (pre ++ .min n :: post)).map
        (extentAlong dir))[pre.length]? = some b ∧
      Nat.min n (extentAlong dir (innerRect area margin) -
        totalDemand (extentAlong dir (innerRect area margin)) pre) ≤ b := by
  refine ⟨by decide, ?_, ?_⟩
  · rw [split_map_extent]
    have h := splitSizes_getElem_nonmin (extentAlong dir (innerRect area margin))
      pre (.length n) post rfl
    simpa [baseDemand] using h
  · rw [split_map_extent, splitSizes]
    have hbase := allocBase_getElem (extentAlong dir (innerRect area margin))
      pre (.min n) post
    obtain ⟨b, hb, hle⟩ := absorb_getElem_ge _ _ _ _ _ hbase
    exact ⟨b, hb, hle⟩

/-- C3 counterexample: on a width-12 rectangle, `[Length(10), Min(5)]`
leaves only 2 columns for the `Min(5)` constraint, so `Min(n)` does not
always consume at least `n` units. -/
theorem split_min_cex :
    (split ⟨0, 0, 12, 1⟩ .horizontal 0 [.length 10, .min 5]).map Rect.width = [10, 2] ∧
    ¬ ((5 : Nat) ≤ 2) := by
  decide

/-- C4: `split` is total and clamps: for every rectangle, direction, margin
and constraint list it returns exactly one (non-negative) rectangle per
constraint, the allocated extents never exceed the inner extent, and once
the demands of the earlier constraints have exhausted the inner extent a
later constraint receives extent zero. -/
theorem split_total_clamped (area : Rect) (dir : Direction) (margin : Nat)
    (cs : List Constraint) :
    (split area dir margin cs).length = cs.length ∧
    ((split area dir margin cs).map (extentAlong dir)).sum ≤
      extentAlong dir (innerRect area margin) ∧
    (∀ pre c post, cs = pre ++ c :: post →
      extentAlong dir (innerRect area margin) ≤
        totalDemand (extentAlong dir (innerRect area margin)) pre →
      ((split area dir margin cs).map (extentAlong dir))[pre.length]? = some 0) := by
  refine ⟨?_, ?_, ?_⟩
  · have h := congrArg List.length (split_map_extent area dir margin cs)
    simpa [splitSizes_length] using h
  · rw [split_map_extent, splitSizes_sum]
    split_ifs
    · exact Nat.le_refl _
    · exact Nat.min_le_right _ _
  · intro pre c post hcs hle
    subst hcs
    rw [split_map_extent, splitSizes]
    have hD : totalDemand (extentAlong dir (innerRect area margin))
        (pre ++ c :: post) =
        totalDemand (extentAlong dir (innerRect area margin)) pre +
          (baseDemand (extentAlong dir (innerRect area margin)) c +
            totalDemand (extentAlong dir (innerRect area margin)) post) := by
      simp [totalDemand, List.map_append, List.sum_append]
    have hsum : (allocBase (extentAlong dir (innerRect area margin))
        (extentAlong dir (innerRect area margin)) (pre ++ c :: post)).sum =
        extentAlong dir (innerRect area margin) := by
      rw [allocBase_sum]
      simp only [Nat.min_def]
      split_ifs <;> omega
    rw [hsum, Nat.sub_self, absorb_zero, allocBase_getElem]
    have h0 : extentAlong dir (innerRect area margin) -
        totalDemand (extentAlong dir (innerRect area margin)) pre = 0 :=
      Nat.sub_eq_zero_of_le hle
    rw [h0]
    simp

/-- C4 witness: with `[Length(10), Length(5)]` on a width-10 rectangle the
first constraint exhausts the width, so the second receives extent zero. -/
theorem split_total_clamped_witness :
    ((split ⟨0, 0, 10, 1⟩ .horizontal 0 [.length 10, .length 5]).map
      (extentAlong .horizontal))[1]? = some 0 :=
  (split_total_clamped ⟨0, 0, 10, 1⟩ .horizontal 0
    [.length 10, .length 5]).2.2 [.length 10] (.length 5) [] rfl (by decide)

/-- C7: the layout split is a pure deterministic function: two calls with
identical arguments (same rectangle, direction, margin and constraint list)
produce identical output, with no hidden state. -/
theorem split_deterministic (area : Rect) (dir : Direction) (margin : Nat)
    (cs : List Constraint) :
    split area dir margin cs = split area dir margin cs ∧
    ∀ area2 dir2 margin2 cs2, area = area2 → dir = dir2 → margin = margin2 →
      cs = cs2 → split area dir margin cs = split area2 dir2 margin2 cs2 := by
  refine ⟨rfl, ?_⟩
  intro area2 dir2 margin2 cs2 h1 h2 h3 h4
  subst h1
  subst h2
  subst h3
  subst h4
  rfl

/-- C7 witness: the two calls on the example arguments agree. -/
theorem split_deterministic_witness :
    split ⟨0, 0, 100, 1⟩ .horizontal 0 [.percentage 30, .percentage 70] =
      split ⟨0, 0, 100, 1⟩ .horizontal 0 [.percentage 30, .percentage 70] :=
  (split_deterministic ⟨0, 0, 100, 1⟩ .horizontal 0
    [.percentage 30, .percentage 70]).2 ⟨0, 0, 100, 1⟩ .horizontal 0
    [.percentage 30, .percentage 70] rfl rfl rfl rfl

/-- An I/O failure, the single error kind of the loop (`io::Error`). -/
inductive IOError
  | mk (msg : String)
deriving DecidableEq

/-- Outcome of a fallible terminal operation (`io::Result`). -/
inductive IOResult (α : Type)
  | ok (a : α)
  | err (e : IOError)
deriving DecidableEq

/-- Modifier keys held with a key press (`KeyModifiers`). -/
structure KeyModifiers where
  ctrl : Bool
  alt : Bool
  shift : Bool
deriving DecidableEq

/-- The key code of a key event; the loop only ever inspects the
character variant (`KeyCode`). -/
inductive KeyCode
  | char (c : Char)
  | enter
  | esc
  | otherKey
deriving DecidableEq

/-- A key event: a key code together with the held modifiers
(`KeyEvent`). -/
structure KeyEvent where
  code : KeyCode
  modifiers : KeyModifiers
deriving DecidableEq

/-- An input event delivered by the terminal (`crossterm::event::Event`):
key presses, mouse events (enabled by mouse capture at startup), focus
changes, pastes and resizes. -/
inductive Event
  | key (k : KeyEvent)
  | mouse
  | focusGained
  | focusLost
  | paste (s : String)
  | resize (w h : Nat)
deriving DecidableEq

/-- Whether an event is a key event. -/
def Event.isKey : Event → Bool
  | .key _ => true
  | _ => false

/-- The loop's quit test, from
`if let Event::Key(key) = event::read()? { if let KeyCode::Char('q') =
key.code { return Ok(()); } }`: only a key event whose code is the
character `q` quits; modifiers are never inspected. -/
def isQuitEvent : Event → Bool
  | .key k =>
    match k.code with
    | .char c => c == 'q'
    | _ => false
  | _ => false

/-- The poll timeout of the loop, from
`event::poll(Duration::from_millis(250))?`. -/
def pollTimeoutMillis : Nat := 250

/-- The terminal-session operations one loop iteration can perform:
a draw, a poll with its timeout in milliseconds, and an event read. -/
inductive TermOp
  | draw
  | pollInput (timeoutMs : Nat)
  | readEvent
deriving DecidableEq

/-- The session's answers for one loop iteration: the outcome of
`terminal.draw(ui)`, of `event::poll(..)` (`true` when an event is ready
within the timeout), and of `event::read()` (consulted only when the poll
reported an event). -/
structure IterInput where
  drawRes : IOResult Unit
  pollRes : IOResult Bool
  readRes : IOResult Event
deriving DecidableEq

/-- Result of running the loop against a finite list of session answers. -/
inductive RunOutcome
  | ok
  | err (e : IOError)
  | pending
deriving DecidableEq

/-- The draw/poll loop `run_app` of `example_2.rs` (the one in
`example_3.rs` is identical), run against explicit session answers, one
`IterInput` per iteration.  Returns the loop's outcome (`pending` when the
answers ran out while the loop was still running) together with the ordered
trace of terminal operations performed. -/
def runApp : List IterInput → RunOutcome × List TermOp
  | [] => (.pending, [])
  | i :: rest =>
    match i.drawRes with
    | .err e => (.err e, [.draw])
    | .ok _ =>
      match i.pollRes with
      | .err e => (.err e, [.draw, .pollInput pollTimeoutMillis])
      | .ok false =>
        ((runApp rest).1,
          .draw :: .pollInput pollTimeoutMillis :: (runApp rest).2)
      | .ok true =>
        match i.readRes with
        | .err e => (.err e, [.draw, .pollInput pollTimeoutMillis, .readEvent])
        | .ok ev =>
          if isQuitEvent ev then
            (.ok, [.draw, .pollInput pollTimeoutMillis, .readEvent])
          else
            ((runApp rest).1,
              .draw :: .pollInput pollTimeoutMillis :: .readEvent ::
                (runApp rest).2)

/-- A session answer on which the poll times out with no event. -/
def quietIter : IterInput :=
  ⟨.ok (), .ok false, .ok .focusGained⟩

/-- A session answer delivering a plain `q` key press. -/
def quitIter : IterInput :=
  ⟨.ok (), .ok true, .ok (.key ⟨.char 'q', ⟨false, false, false⟩⟩)⟩

/-- C5: against a session whose polls time out on the first two iterations
and deliver a `q` key press on the third, `run_app` performs exactly three
draw+poll cycles — drawing before polling in each — and returns success. -/
theorem runApp_three_cycles :
    runApp [quietIter, quietIter, quitIter] =
      (.ok, [.draw, .pollInput pollTimeoutMillis,
             .draw, .pollInput pollTimeoutMillis,
             .draw, .pollInput pollTimeoutMillis, .readEvent]) ∧
    (runApp [quietIter, quietIter, quitIter]).2.count .draw = 3 ∧
    (runApp [quietIter, quietIter, quitIter]).2.count
      (.pollInput pollTimeoutMillis) = 3 := by
  decide

/-- C6: an I/O failure from draw or poll terminates the loop at once,
propagating that error with no retry; against a session whose second poll
fails, the loop stops right after that poll, having drawn exactly twice. -/
theorem runApp_error_stops (i : IterInput) (rest : List IterInput) (e : IOError) :
    (i.drawRes = .err e → runApp (i :: rest) = (.err e, [.draw])) ∧
    (i.drawRes = .ok () → i.pollRes = .err e →
      runApp (i :: rest) = (.err e, [.draw, .pollInput pollTimeoutMillis])) ∧
    runApp [quietIter, ⟨.ok (), .err (.mk "io failure"), .ok .focusGained⟩] =
      (.err (.mk "io failure"),
        [.draw, .pollInput pollTimeoutMillis,
         .draw, .pollInput pollTimeoutMillis]) ∧
    (runApp [quietIter,
      ⟨.ok (), .err (.mk "io failure"), .ok .focusGained⟩]).2.count .draw = 2 := by
  refine ⟨?_, ?_, by decide, by decide⟩
  · intro h
    simp [runApp, h]
  · intro h1 h2
    simp [runApp, h1, h2]

/-- C6 witness: a failing first draw, and a failing first poll, each stop
the loop at once with the error. -/
theorem runApp_error_stops_witness :
    runApp [(⟨.err (.mk "boom"), .ok false, .ok .focusGained⟩ : IterInput)] =
      (.err (.mk "boom"), [.draw]) ∧
    runApp [(⟨.ok (), .err (.mk "boom"), .ok .focusGained⟩ : IterInput)] =
      (.err (.mk "boom"), [.draw, .pollInput pollTimeoutMillis]) :=
  ⟨(runApp_error_stops ⟨.err (.mk "boom"), .ok false, .ok .focusGained⟩ []
      (.mk "boom")).1 rfl,
   (runApp_error_stops ⟨.ok (), .err (.mk "boom"), .ok .focusGained⟩ []
      (.mk "boom")).2.1 rfl rfl⟩

lemma runApp_poll_timeout (l : List IterInput) (t : Nat)
    (h : TermOp.pollInput t ∈ (runApp l).2) : t = pollTimeoutMillis := by
  induction l with
  | nil => simp [runApp] at h
  | cons i rest ih =>
    obtain ⟨d, p, r⟩ := i
    cases d with
    | err e => simp [runApp] at h
    | ok u =>
      cases p with
      | err e =>
        simp [runApp] at h
        exact h
      | ok b =>
        cases b with
        | false =>
          simp [runApp] at h
          rcases h with h | h
          · exact h
          · exact ih h
        | true =>
          cases r with
          | err e =>
            simp [runApp] at h
            exact h
          | ok ev =>
            by_cases hq : isQuitEvent ev = true
            · simp [runApp, hq] at h
              exact h
            · simp [runApp, hq] at h
              rcases h with h | h
              · exact h
              · exact ih h

lemma runApp_ok_has_quit (l : List IterInput) (h : (runApp l).1 = .ok) :
    ∃ i ∈ l, i.pollRes = .ok true ∧
      ∃ ev, i.readRes = .ok ev ∧ isQuitEvent ev = true := by
  induction l with
  | nil => simp [runApp] at h
  | cons i rest ih =>
    obtain ⟨d, p, r⟩ := i
    cases d with
    | err e => simp [runApp] at h
    | ok u =>
      cases p with
      | err e => simp [runApp] at h
      | ok b =>
        cases b with
        | false =>
          simp only [runApp] at h
          obtain ⟨j, hj, hprop⟩ := ih h
          exact ⟨j, List.mem_cons_of_mem _ hj, hprop⟩
        | true =>
          cases r with
          | err e => simp [runApp] at h
          | ok ev =>
            by_cases hq : isQuitEvent ev = true
            · exact ⟨⟨.ok u, .ok true, .ok ev⟩, List.mem_cons_self _ _,
                rfl, ev, rfl, hq⟩
            · simp only [runApp, hq, if_false] at h
              obtain ⟨j, hj, hprop⟩ := ih h
              exact ⟨j, List.mem_cons_of_mem _ hj, hprop⟩

/-- C8: every poll of the loop uses the fixed 250 ms timeout; the loop
returns success exactly when a `q` character-key event arrives within the
timeout — a quit event ends the loop there with success, a timeout or any
non-quit event keeps it running into the next draw — so success is never
returned without a `q` character-key event having been received. -/
theorem runApp_poll_quit_protocol :
    pollTimeoutMillis = 250 ∧
    (∀ l t, TermOp.pollInput t ∈ (runApp l).2 → t = 250) ∧
    (∀ l, (runApp l).1 = .ok →
      ∃ i ∈ l, i.pollRes = .ok true ∧
        ∃ ev, i.readRes = .ok ev ∧ isQuitEvent ev = true) ∧
    (∀ i rest ev, i.drawRes = .ok () → i.pollRes = .ok true →
      i.readRes = .ok ev → isQuitEvent ev = true →
      runApp (i :: rest) =
        (.ok, [.draw, .pollInput pollTimeoutMillis, .readEvent])) ∧
    (∀ i rest, i.drawRes = .ok () → i.pollRes = .ok false →
      runApp (i :: rest) =
        ((runApp rest).1,
          .draw :: .pollInput pollTimeoutMillis :: (runApp rest).2)) ∧
    (∀ i rest ev, i.drawRes = .ok () → i.pollRes = .ok true →
      i.readRes = .ok ev → isQuitEvent ev = false →
      runApp (i :: rest) =
        ((runApp rest).1,
          .draw :: .pollInput pollTimeoutMillis :: .readEvent ::
            (runApp rest).2)) := by
  refine ⟨rfl, ?_, runApp_ok_has_quit, ?_, ?_, ?_⟩
  · intro l t h
    exact runApp_poll_timeout l t h
  · intro i rest ev h1 h2 h3 h4
    simp [runApp, h1, h2, h3, h4]
  · intro i rest h1 h2
    simp [runApp, h1, h2]
  · intro i rest ev h1 h2 h3 h4
    simp [runApp, h1, h2, h3, h4]

/-- C8 witness: the protocol conjuncts applied to concrete one-iteration
sessions. -/
theorem runApp_poll_quit_protocol_witness :
    ((250 : Nat) = 250) ∧
    (∃ i ∈ [quitIter], i.pollRes = .ok true ∧
      ∃ ev, i.readRes = .ok ev ∧ isQuitEvent ev = true) ∧
    runApp (quitIter :: []) =
      (.ok, [.draw, .pollInput pollTimeoutMillis, .readEvent]) ∧
    runApp (quietIter :: []) =
      ((runApp []).1,
        .draw :: .pollInput pollTimeoutMillis :: (runApp []).2) ∧
    runApp ((⟨.ok (), .ok true, .ok .mouse⟩ : IterInput) :: []) =
      ((runApp []).1,
        .draw :: .pollInput pollTimeoutMillis :: .readEvent ::
          (runApp []).2) :=
  ⟨runApp_poll_quit_protocol.2.1 [quitIter] 250 (by decide),
   runApp_poll_quit_protocol.2.2.1 [quitIter] (by decide),
   runApp_poll_quit_protocol.2.2.2.1 quitIter []
     (.key ⟨.char 'q', ⟨false, false, false⟩⟩) rfl rfl rfl (by decide),
   runApp_poll_quit_protocol.2.2.2.2.1 quietIter [] rfl rfl,
   runApp_poll_quit_protocol.2.2.2.2.2 ⟨.ok (), .ok true, .ok .mouse⟩ []
     .mouse rfl rfl rfl rfl⟩

/-- C10: the quit test inspects only the key code: any key event carrying
the character `q` quits with success whatever modifiers are held, and every
non-key event (mouse events included) is discarded, the loop continuing. -/
theorem runApp_quit_ignores_modifiers :
    (∀ c m, isQuitEvent (.key ⟨.char c, m⟩) = (c == 'q')) ∧
    (∀ m rest,
      runApp ((⟨.ok (), .ok true, .ok (.key ⟨.char 'q', m⟩)⟩ : IterInput)
          :: rest) =
        (.ok, [.draw, .pollInput pollTimeoutMillis, .readEvent])) ∧
    (∀ ev rest, ev.isKey = false →
      runApp ((⟨.ok (), .ok true, .ok ev⟩ : IterInput) :: rest) =
        ((runApp rest).1,
          .draw :: .pollInput pollTimeoutMillis :: .readEvent ::
            (runApp rest).2)) := by
  refine ⟨fun c m => rfl, ?_, ?_⟩
  · intro m rest
    simp [runApp, isQuitEvent]
  · intro ev rest h
    have hq : isQuitEvent ev = false := by
      cases ev with
      | key k => simp [Event.isKey] at h
      | mouse => rfl
      | focusGained => rfl
      | focusLost => rfl
      | paste s => rfl
      | resize w h => rfl
    simp [runApp, hq]

/-- C10 witness: a Ctrl-modified `q` key press quits, and a mouse event is
discarded with the loop continuing. -/
theorem runApp_quit_ignores_modifiers_witness :
    runApp [(⟨.ok (), .ok true,
        .ok (.key ⟨.char 'q', ⟨true, false, false⟩⟩)⟩ : IterInput)] =
      (.ok, [.draw, .pollInput pollTimeoutMillis, .readEvent]) ∧
    runApp [(⟨.ok (), .ok true, .ok .mouse⟩ : IterInput)] =
      ((runApp []).1,
        .draw :: .pollInput pollTimeoutMillis :: .readEvent ::
          (runApp []).2) :=
  ⟨runApp_quit_ignores_modifiers.2.1 ⟨true, false, false⟩ [],
   runApp_quit_ignores_modifiers.2.2 .mouse [] rfl⟩

/-- The operations `main` performs, in `example_2.rs` order: terminal
setup, the draw loop, terminal restoration, and the debug print of a loop
error. -/
inductive MainStep
  | enableRawMode
  | enterAltScreen
  | enableMouseCapture
  | runDrawLoop
  | disableRawMode
  | leaveAltScreen
  | disableMouseCapture
  | clearTerminal
  | showCursor
  | printDebug (e : IOError)
deriving DecidableEq

/-- The outcomes of the fallible operations `main` performs: raw-mode
enabling, the setup `execute!` (alternate screen + mouse capture), terminal
construction, the draw loop itself, raw-mode disabling, the restore
`execute!` (leave alternate screen + disable mouse capture), the clear and
the cursor restore. -/
structure MainEnv where
  enableRawRes : IOResult Unit
  setupScreenRes : IOResult Unit
  newTerminalRes : IOResult Unit
  loopRes : IOResult Unit
  disableRawRes : IOResult Unit
  restoreScreenRes : IOResult Unit
  clearRes : IOResult Unit
  showCursorRes : IOResult Unit
deriving DecidableEq

/-- The trace of `main` when setup and restoration succeed: setup, the
draw loop, then all four restoration operations. -/
def restoredTrace : List MainStep :=
  [.enableRawMode, .enterAltScreen, .enableMouseCapture, .runDrawLoop,
   .disableRawMode, .leaveAltScreen, .disableMouseCapture, .clearTerminal,
   .showCursor]

/-- The final `if let Err(err) = res { println!("\x7berr:?\x7d") }` of
`main`: a loop error is printed in debug form, success prints nothing. -/
def errReport : IOResult Unit → List MainStep
  | .ok _ => []
  | .err e => [.printDebug e]

/-- The `main` function of `example_2.rs` (identical in `example_3.rs`):
enable raw mode, enter the alternate screen with mouse capture, build the
terminal, run the draw loop capturing its result, restore the terminal
unconditionally, then print a loop error in debug form and return `Ok(())`.
Each `?` is an early return with the error. -/
def mainFlow (env : MainEnv) : List MainStep × IOResult Unit :=
  match env.enableRawRes with
  | .err e => ([.enableRawMode], .err e)
  | .ok _ =>
    match env.setupScreenRes with
    | .err e =>
      ([.enableRawMode, .enterAltScreen, .enableMouseCapture], .err e)
    | .ok _ =>
      match env.newTerminalRes with
      | .err e =>
        ([.enableRawMode, .enterAltScreen, .enableMouseCapture], .err e)
      | .ok _ =>
        match env.disableRawRes with
        | .err e =>
          ([.enableRawMode, .enterAltScreen, .enableMouseCapture,
            .runDrawLoop, .disableRawMode], .err e)
        | .ok _ =>
          match env.restoreScreenRes with
          | .err e =>
            ([.enableRawMode, .enterAltScreen, .enableMouseCapture,
              .runDrawLoop, .disableRawMode, .leaveAltScreen,
              .disableMouseCapture], .err e)
          | .ok _ =>
            match env.clearRes with
            | .err e =>
              ([.enableRawMode, .enterAltScreen, .enableMouseCapture,
                .runDrawLoop, .disableRawMode, .leaveAltScreen,
                .disableMouseCapture, .clearTerminal], .err e)
            | .ok _ =>
              match env.showCursorRes with
              | .err e => (restoredTrace, .err e)
              | .ok _ => (restoredTrace ++ errReport env.loopRes, .ok ())

/-- C9: whenever setup and the four restoration operations succeed, `main`
restores the terminal after the draw loop on both of the loop's exit paths
— success or I/O error — then prints a loop error (if any) in debug form
after the restoration, and returns `Ok(())`, exiting with success status in
either case. -/
theorem main_restores_and_exits_ok (env : MainEnv)
    (h1 : env.enableRawRes = .ok ()) (h2 : env.setupScreenRes = .ok ())
    (h3 : env.newTerminalRes = .ok ()) (h4 : env.disableRawRes = .ok ())
    (h5 : env.restoreScreenRes = .ok ()) (h6 : env.clearRes = .ok ())
    (h7 : env.showCursorRes = .ok ()) :
    mainFlow env = (restoredTrace ++ errReport env.loopRes, .ok ()) ∧
    MainStep.disableRawMode ∈ (mainFlow env).1 ∧
    MainStep.leaveAltScreen ∈ (mainFlow env).1 ∧
    (∀ e, env.loopRes = .err e → MainStep.printDebug e ∈ (mainFlow env).1) := by
  obtain ⟨a1, a2, a3, lr, a4, a5, a6, a7⟩ := env
  simp only at h1 h2 h3 h4 h5 h6 h7
  subst h1
  subst h2
  subst h3
  subst h4
  subst h5
  subst h6
  subst h7
  refine ⟨rfl, ?_, ?_, ?_⟩
  · cases lr <;> simp [mainFlow, restoredTrace, errReport]
  · cases lr <;> simp [mainFlow, restoredTrace, errReport]
  · intro e he
    subst he
    simp [mainFlow, restoredTrace, errReport]

/-- C9 witness: with a failing draw loop and successful restoration,
`main` restores the terminal, prints the error in debug form, and still
returns `Ok(())`. -/
theorem main_restores_and_exits_ok_witness :
    mainFlow ⟨.ok (), .ok (), .ok (), .err (.mk "boom"), .ok (), .ok (),
        .ok (), .ok ()⟩ =
      (restoredTrace ++ errReport (.err (.mk "boom")), .ok ()) ∧
    MainStep.printDebug (.mk "boom") ∈
      (mainFlow ⟨.ok (), .ok (), .ok (), .err (.mk "boom"), .ok (), .ok (),
        .ok (), .ok ()⟩).1 :=
  ⟨(main_restores_and_exits_ok ⟨.ok (), .ok (), .ok (), .err (.mk "boom"),
      .ok (), .ok (), .ok (), .ok ()⟩ rfl rfl rfl rfl rfl rfl rfl).1,
   (main_restores_and_exits_ok ⟨.ok (), .ok (), .ok (), .err (.mk "boom"),
      .ok (), .ok (), .ok (), .ok ()⟩ rfl rfl rfl rfl rfl rfl rfl).2.2.2
     (.mk "boom") rfl⟩
